import Mathlib

/-!
Verification of the AnyNotes code-gists repository (C sources under
code-gists/): the bounded append-only log buffer, the producer loop, the
tray state machine and the shutdown path, shallowly embedded in Lean.
-/

namespace AnyNotes

/-! ## LogBuffer (replicate-console-gui.c)

`char textBuffer[1024 * 10] = "";` together with `AppendText`:
the C function first normalizes `\n` to `\r\n` into a local
`char formattedText[2048]` (loop guard `j < sizeof(formattedText) - 2`),
then computes `bufferSpaceLeft = sizeof(textBuffer) - strlen(textBuffer) - 1`
and appends the whole formatted string with `strncat` only when
`bufferSpaceLeft > strlen(formattedText)`; otherwise it appends nothing.
-/

/-- The constant `sizeof(textBuffer)` = 1024 * 10. -/
def textBufferSize : Nat := 1024 * 10

/-- The constant `sizeof(formattedText)` = 2048. -/
def formattedTextSize : Nat := 2048

/-- The normalization loop of `AppendText`: `j` is the number of output
characters produced so far; the loop runs while the input has characters
left and `j < sizeof(formattedText) - 2`, turning each `'\n'` into
`'\r','\n'` and copying every other character. -/
def normalizeLoop : List Char → Nat → List Char
  | [], _ => []
  | c :: rest, j =>
    if j < formattedTextSize - 2 then
      if c = '\n' then '\r' :: '\n' :: normalizeLoop rest (j + 2)
      else c :: normalizeLoop rest (j + 1)
    else []

/-- The normalized (and possibly truncated) text `formattedText` built by
`AppendText` from input `newText`. -/
def normalize (s : String) : String := String.mk (normalizeLoop s.data 0)

/-- The quantity `bufferSpaceLeft = sizeof(textBuffer) - strlen(textBuffer) - 1`.
In any state reachable by the C program `strlen(textBuffer) <= 10239`,
so the `size_t` subtraction never wraps and agrees with Nat subtraction. -/
def bufferSpaceLeft (buf : String) : Nat := textBufferSize - buf.length - 1

/-- The effect of `AppendText` on `textBuffer`: when
`bufferSpaceLeft > strlen(formattedText)` the guard admits the whole
formatted string (under the guard `strncat` copies all of it); otherwise
nothing is appended. -/
def appendText (buf : String) (newText : String) : String :=
  if bufferSpaceLeft buf > (normalize newText).length then buf ++ normalize newText
  else buf

/-- The buffer contents after a sequence of `AppendText` calls starting
from the initial empty `textBuffer`. -/
def appendAll (ts : List String) : String := ts.foldl appendText ""

example : normalize "running\n" = "running\r\n" := by decide

example : appendText "" "running\n" = "running\r\n" := by decide

/-- Content capacity of the log: the 10240-byte array keeps one slot for
the terminating NUL, so at most `10239` text bytes can ever be stored and
`bufferSpaceLeft = capacity - length`. -/
def logCapacity : Nat := textBufferSize - 1

theorem appendText_cases (buf t : String) :
    appendText buf t = buf ++ normalize t ∨ appendText buf t = buf := by
  unfold appendText
  split
  · exact Or.inl rfl
  · exact Or.inr rfl

theorem appendText_length_le (buf t : String) (h : buf.length ≤ logCapacity) :
    (appendText buf t).length ≤ logCapacity := by
  unfold appendText
  split
  case isTrue hc =>
    rw [String.length_append]
    unfold bufferSpaceLeft textBufferSize at hc
    unfold logCapacity textBufferSize
    omega
  case isFalse _ => exact h

theorem foldl_appendText_length_le (ts : List String) (buf : String)
    (h : buf.length ≤ logCapacity) :
    (ts.foldl appendText buf).length ≤ logCapacity := by
  induction ts generalizing buf with
  | nil => exact h
  | cons t ts ih => exact ih _ (appendText_length_le buf t h)

theorem data_prefix_appendText (buf t : String) :
    buf.data <+: (appendText buf t).data := by
  rcases appendText_cases buf t with h | h <;> rw [h]
  rw [String.data_append]
  exact List.prefix_append _ _

/-- C2: starting from the empty buffer, after every sequence of Append
calls the stored length stays within the capacity bound, and the next
Append never modifies the bytes already stored (the old contents remain a
prefix of the new contents). -/
theorem logBuffer_capacity_invariant (ts : List String) :
    (appendAll ts).length ≤ logCapacity ∧
      ∀ t : String, (appendAll ts).data <+: (appendAll (ts ++ [t])).data := by
  constructor
  · exact foldl_appendText_length_le ts "" (by decide)
  · intro t
    have h : appendAll (ts ++ [t]) = appendText (appendAll ts) t := by
      unfold appendAll
      rw [List.foldl_append]
      rfl
    rw [h]
    exact data_prefix_appendText _ _

/-- A buffer holding 10230 bytes: 9 bytes of free space remain. -/
def nearFullBuf : String := String.mk (List.replicate 10230 'a')

theorem nearFullBuf_length : nearFullBuf.length = 10230 := by
  have h : nearFullBuf.length = (List.replicate 10230 'a').length := rfl
  rw [h, List.length_replicate]

/-- C1 counterexample: with 10230 bytes stored (9 bytes free) and a
10-character input, the claim predicts the 9-character prefix
"012345678" is written; the code instead writes nothing and leaves the
buffer unchanged. -/
theorem appendText_no_partial_write_counterexample :
    appendText nearFullBuf "0123456789" = nearFullBuf ∧
      appendText nearFullBuf "0123456789" ≠ nearFullBuf ++ "012345678" := by
  have hnorm : normalize "0123456789" = "0123456789" := by decide
  have h1 : appendText nearFullBuf "0123456789" = nearFullBuf := by
    unfold appendText
    rw [hnorm, if_neg]
    rw [bufferSpaceLeft, nearFullBuf_length]
    decide
  refine ⟨h1, ?_⟩
  rw [h1]
  intro hEq
  have hlen := congrArg String.length hEq
  rw [String.length_append, nearFullBuf_length] at hlen
  have h9 : ("012345678" : String).length = 9 := rfl
  omega

/-- C1 (amended): whenever the free space `bufferSpaceLeft` is at most the
normalized length — in particular whenever it is strictly less, and for
every non-empty append once the buffer is full — AppendText writes zero
bytes and leaves the buffer unchanged; the whole normalized text is
discarded, so nothing is ever written past capacity. -/
theorem appendText_rejected_when_insufficient_space (buf t : String)
    (h : bufferSpaceLeft buf ≤ (normalize t).length) :
    appendText buf t = buf := by
  unfold appendText
  rw [if_neg]
  omega

/-- A completely full buffer: 10239 bytes stored, zero bytes free. -/
def fullBuf : String := String.mk (List.replicate 10239 'a')

theorem fullBuf_space : bufferSpaceLeft fullBuf = 0 := by
  rw [bufferSpaceLeft]
  have h : fullBuf.length = (List.replicate 10239 'a').length := rfl
  rw [h, List.length_replicate]
  decide

theorem appendText_rejected_when_insufficient_space_witness :
    bufferSpaceLeft fullBuf ≤ (normalize "x").length ∧
      appendText fullBuf "x" = fullBuf :=
  have h : bufferSpaceLeft fullBuf ≤ (normalize "x").length := by
    rw [fullBuf_space]
    exact Nat.zero_le _
  ⟨h, appendText_rejected_when_insufficient_space fullBuf "x" h⟩

/-! ## Normalization truncation (C9) -/

theorem normalizeLoop_length_le (l : List Char) (j : Nat) :
    (normalizeLoop l j).length ≤ 2047 - j := by
  induction l generalizing j with
  | nil => simp [normalizeLoop]
  | cons c rest ih =>
    have hf : formattedTextSize - 2 = 2046 := rfl
    simp only [normalizeLoop]
    split
    case isTrue hl =>
      rw [hf] at hl
      split
      case isTrue hc =>
        simp only [List.length_cons]
        have := ih (j + 2)
        omega
      case isFalse hc =>
        simp only [List.length_cons]
        have := ih (j + 1)
        omega
    case isFalse hl => simp

theorem normalizeLoop_replicate_append (n : Nat) (rest : List Char) (j : Nat)
    (h : j + n ≤ 2046) :
    normalizeLoop (List.replicate n 'a' ++ rest) j
      = List.replicate n 'a' ++ normalizeLoop rest (j + n) := by
  induction n generalizing j with
  | zero => simp
  | succ n ih =>
    have hf : formattedTextSize - 2 = 2046 := rfl
    rw [List.replicate_succ, List.cons_append]
    simp only [normalizeLoop]
    rw [if_pos (show j < formattedTextSize - 2 by rw [hf]; omega),
      if_neg (show ¬ ('a' = '\n') by decide),
      ih (j + 1) (by omega),
      show j + 1 + n = j + (n + 1) from by omega,
      List.cons_append]

/-- An input of 2045 characters followed by a newline: its fully normalized
form is 2047 characters, one more than `sizeof(formattedText) - 2`. -/
def longInput : String := String.mk (List.replicate 2045 'a' ++ ['\n'])

/-- C9 counterexample: normalizing `longInput` produces 2047 characters
(the trailing newline expands to the two characters CR LF after the
2045th output byte), so the normalized form is not limited to 2046
bytes as claimed. -/
theorem normalize_not_bounded_by_2046 :
    (normalize longInput).length = 2047 ∧ ¬ (normalize longInput).length ≤ 2046 := by
  have hdata : longInput.data = List.replicate 2045 'a' ++ ['\n'] := rfl
  have h1 : normalize longInput
      = String.mk (List.replicate 2045 'a' ++ normalizeLoop ['\n'] 2045) := by
    unfold normalize
    rw [hdata, normalizeLoop_replicate_append 2045 ['\n'] 0 (by omega)]
  have h2 : normalizeLoop ['\n'] 2045 = ['\r', '\n'] := by decide
  rw [h1, h2]
  have hlen : (String.mk (List.replicate 2045 'a' ++ ['\r', '\n'])).length
      = (List.replicate 2045 'a' ++ ['\r', '\n']).length := rfl
  have h3 : (['\r', '\n'] : List Char).length = 2 := rfl
  rw [hlen, List.length_append, List.length_replicate, h3]
  omega

/-- C9 (amended): the normalization step writes into the fixed 2048-byte
`formattedText`, so the normalized form of a single Append is silently
truncated to at most 2047 bytes (2046 plus one extra when the cutoff lands
on a newline expansion) before the capacity check, a bound independent of
the capacity of the log; even appending to the empty buffer stores at most
2047 bytes. -/
theorem normalize_truncated_to_2047 (s : String) :
    (normalize s).length ≤ 2047 ∧ (appendText "" s).length ≤ 2047 := by
  have h := normalizeLoop_length_le s.data 0
  have hn : (normalize s).length = (normalizeLoop s.data 0).length := rfl
  constructor
  · omega
  · rcases appendText_cases "" s with hc | hc <;> rw [hc]
    · rw [String.length_append]
      have hz : ("" : String).length = 0 := rfl
      omega
    · decide

/-! ## Three producer cycles (C4) -/

/-- C4 counterexample: three appends of `"running\n"` to the empty buffer
produce `"running\r\n"` three times over, which is 27 characters, not the
claimed 17. -/
theorem three_appends_total_not_17 :
    appendAll ["running\n", "running\n", "running\n"]
        = "running\r\nrunning\r\nrunning\r\n" ∧
      (appendAll ["running\n", "running\n", "running\n"]).length = 27 ∧
      ¬ (appendAll ["running\n", "running\n", "running\n"]).length = 17 := by
  refine ⟨by decide, by decide, by decide⟩

/-- C4 (amended): each `'\n'` is normalized to `'\r','\n'`, and after three
producer cycles appending `"running\n"` to the empty buffer (whose
capacity 10239 far exceeds the 27 bytes needed) the snapshot equals
`"running\r\n"` repeated three times, totalling 27 characters. -/
theorem three_appends_snapshot :
    normalize "running\n" = "running\r\n" ∧
      appendAll ["running\n", "running\n", "running\n"]
        = "running\r\nrunning\r\nrunning\r\n" ∧
      ("running\r\nrunning\r\nrunning\r\n" : String).length = 27 := by
  refine ⟨by decide, by decide, by decide⟩

/-! ## Snapshot after a fitting sequence of appends (C5) -/

theorem foldl_string_append_eq (l : List String) (a : String) :
    List.foldl (fun r s => r ++ s) a l
      = a ++ List.foldl (fun r s => r ++ s) "" l := by
  induction l generalizing a with
  | nil => rw [List.foldl_nil, List.foldl_nil, String.append_empty]
  | cons b l ih =>
    rw [List.foldl_cons, List.foldl_cons, ih (a ++ b), ih ("" ++ b),
      String.empty_append, String.append_assoc]

theorem string_join_cons (s : String) (l : List String) :
    String.join (s :: l) = s ++ String.join l := by
  show List.foldl (fun r s => r ++ s) "" (s :: l)
      = s ++ List.foldl (fun r s => r ++ s) "" l
  rw [List.foldl_cons, String.empty_append, foldl_string_append_eq l s]

/-- Every append in the sequence fits: at each intermediate buffer state
the free space strictly exceeds the normalized length, which is exactly
the condition under which `AppendText` writes the text. -/
def fitsAll (buf : String) : List String → Bool
  | [] => true
  | t :: ts =>
    decide ((normalize t).length < bufferSpaceLeft buf) && fitsAll (appendText buf t) ts

theorem foldl_appendText_of_fits (ts : List String) (buf : String)
    (h : fitsAll buf ts = true) :
    ts.foldl appendText buf = buf ++ String.join (ts.map normalize) := by
  induction ts generalizing buf with
  | nil =>
    rw [List.foldl_nil, List.map_nil]
    rw [show String.join [] = "" from rfl, String.append_empty]
  | cons t ts ih =>
    rw [fitsAll, Bool.and_eq_true, decide_eq_true_eq] at h
    obtain ⟨h1, h2⟩ := h
    have happ : appendText buf t = buf ++ normalize t := by
      unfold appendText
      rw [if_pos h1]
    rw [List.foldl_cons, ih _ h2, happ, List.map_cons, string_join_cons,
      String.append_assoc]

/-- C5: for every sequence of Append calls starting from the empty buffer,
none of which overflows (each one satisfies the fit condition of the code at
its turn), the snapshot after the last call is exactly the concatenation
of the normalized forms of the appended texts, in order. -/
theorem snapshot_eq_normalized_concat (ts : List String)
    (h : fitsAll "" ts = true) :
    appendAll ts = String.join (ts.map normalize) := by
  unfold appendAll
  rw [foldl_appendText_of_fits ts "" h, String.empty_append]

theorem snapshot_eq_normalized_concat_witness :
    fitsAll "" ["hello\n", "world"] = true ∧
      appendAll ["hello\n", "world"]
        = String.join (["hello\n", "world"].map normalize) :=
  ⟨by decide, snapshot_eq_normalized_concat ["hello\n", "world"] (by decide)⟩

/-! ## WinMain exit paths (replicate-console-gui.c, C3)

`WinMain` returns 0 when `CreateWindowEx` yields NULL (before the producer
thread and the message loop exist), returns 1 when `CreateThread` yields
NULL (before the message loop runs), and otherwise runs the message loop,
performs the cleanup sequence and returns 0. -/

structure WinMainOutcome where
  exitCode : Nat
  producerStarted : Bool
  dispatcherRan : Bool
deriving DecidableEq

/-- The control flow of `WinMain` as a function of whether window (surface)
creation and producer-thread creation succeed. -/
def winMain (surfaceOk threadOk : Bool) : WinMainOutcome :=
  if surfaceOk = false then ⟨0, false, false⟩
  else if threadOk = false then ⟨1, false, false⟩
  else ⟨0, true, true⟩

/-- C3 counterexample: when the surface fails to initialize, `WinMain`
returns exit code 0 — exactly the clean-shutdown code, not a distinct
non-zero code. -/
theorem winMain_surface_failure_exits_zero :
    (winMain false true).exitCode = 0 ∧
      (winMain false true).exitCode = (winMain true true).exitCode := by
  exact ⟨rfl, rfl⟩

/-- C3 (amended): clean shutdown exits with code 0; a surface-initialization
failure exits immediately with code 0 as well (not a distinct non-zero
code) without starting the Producer or the dispatcher loop; a failure to
create the producer thread exits with code 1 without running the
dispatcher loop. -/
theorem winMain_exit_paths :
    (∀ b : Bool, winMain false b = ⟨0, false, false⟩) ∧
      winMain true false = ⟨1, false, false⟩ ∧
      winMain true true = ⟨0, true, true⟩ := by
  refine ⟨fun b => ?_, rfl, rfl⟩
  cases b <;> rfl

/-! ## Tray state machine (systray.c, C6 and C8)

The state tracked by systray.c: `isMinimized`, the visibility of the
console window manipulated through `ShowWindow`, the `running` flag read
by the main loop, the presence of the tray icon, and whether
`PostQuitMessage` ended the message loop. -/

inductive TrayEvent
  | minimizeRequested
  | restoreRequested
  | exitRequested
deriving DecidableEq

structure TrayState where
  isMinimized : Bool
  consoleVisible : Bool
  running : Bool
  trayIconPresent : Bool
  quitPosted : Bool
deriving DecidableEq

/-- Function `MinimizeToTray`: `ShowWindow(hWndConsole, SW_RESTORE)` then
`ShowWindow(hWndConsole, SW_HIDE)` and `isMinimized = TRUE`. -/
def minimizeToTray (s : TrayState) : TrayState :=
  { s with consoleVisible := false, isMinimized := true }

/-- Function `RestoreFromTray`: `ShowWindow(hWndConsole, SW_RESTORE)`,
`SetForegroundWindow`, `isMinimized = FALSE`. -/
def restoreFromTray (s : TrayState) : TrayState :=
  { s with consoleVisible := true, isMinimized := false }

/-- Function `ExitApplication`: `Shell_NotifyIcon(NIM_DELETE, ...)`,
`running = FALSE`, `PostQuitMessage(0)`. -/
def exitApplication (s : TrayState) : TrayState :=
  { s with trayIconPresent := false, running := false, quitPosted := true }

/-- Routing in `WndProc`: the SC_MINIMIZE system command calls
`MinimizeToTray`, the tray menu item Open calls `RestoreFromTray`, and the
tray menu item Exit calls `ExitApplication`. -/
def dispatchEvent (s : TrayState) : TrayEvent → TrayState
  | .minimizeRequested => minimizeToTray s
  | .restoreRequested => restoreFromTray s
  | .exitRequested => exitApplication s

/-- How many times `ExitApplication` runs while the message loop dispatches
the given events in order; the `GetMessage(...) > 0` loop stops delivering
events once `PostQuitMessage` has been called. -/
def shutdownsPerformed (s : TrayState) : List TrayEvent → Nat
  | [] => 0
  | e :: es =>
    if s.quitPosted then 0
    else (if e = TrayEvent.exitRequested then 1 else 0)
        + shutdownsPerformed (dispatchEvent s e) es

theorem shutdownsPerformed_of_quit (s : TrayState) (es : List TrayEvent)
    (h : s.quitPosted = true) : shutdownsPerformed s es = 0 := by
  cases es with
  | nil => rfl
  | cons e es => rw [shutdownsPerformed, if_pos h]

theorem shutdownsPerformed_eq (es : List TrayEvent) (s : TrayState)
    (h : s.quitPosted = false) :
    shutdownsPerformed s es
      = if TrayEvent.exitRequested ∈ es then 1 else 0 := by
  induction es generalizing s with
  | nil => rfl
  | cons e es ih =>
    rw [shutdownsPerformed, if_neg (by rw [h]; exact Bool.false_ne_true)]
    cases e with
    | exitRequested =>
      rw [if_pos rfl, shutdownsPerformed_of_quit _ _ rfl,
        if_pos (List.mem_cons_self _ _)]
    | minimizeRequested =>
      rw [if_neg (by decide),
        ih (dispatchEvent s TrayEvent.minimizeRequested) h]
      have hmem : (TrayEvent.exitRequested ∈ TrayEvent.minimizeRequested :: es)
          ↔ TrayEvent.exitRequested ∈ es := by
        rw [List.mem_cons]
        refine ⟨fun hc => ?_, Or.inr⟩
        rcases hc with hc | hc
        · exact absurd hc (by decide)
        · exact hc
      by_cases hm : TrayEvent.exitRequested ∈ es
      · rw [if_pos hm, if_pos (hmem.mpr hm)]
      · rw [if_neg hm, if_neg (fun hc => hm (hmem.mp hc))]
    | restoreRequested =>
      rw [if_neg (by decide),
        ih (dispatchEvent s TrayEvent.restoreRequested) h]
      have hmem : (TrayEvent.exitRequested ∈ TrayEvent.restoreRequested :: es)
          ↔ TrayEvent.exitRequested ∈ es := by
        rw [List.mem_cons]
        refine ⟨fun hc => ?_, Or.inr⟩
        rcases hc with hc | hc
        · exact absurd hc (by decide)
        · exact hc
      by_cases hm : TrayEvent.exitRequested ∈ es
      · rw [if_pos hm, if_pos (hmem.mpr hm)]
      · rw [if_neg hm, if_neg (fun hc => hm (hmem.mp hc))]

/-- C6: MinimizeRequested in a VISIBLE state minimizes to tray and hides
the surface; RestoreRequested in a MINIMIZED_TO_TRAY state restores and
shows the surface; RestoreRequested while VISIBLE (surface shown) is a
no-op; ExitRequested from any state enters the exiting state (quit posted,
main loop told to stop) and, over any event sequence the message loop
dispatches, shutdown runs exactly once when an exit event occurs and
never more than once. -/
theorem trayStateMachine :
    (∀ s : TrayState, s.isMinimized = false →
        (dispatchEvent s .minimizeRequested).isMinimized = true ∧
          (dispatchEvent s .minimizeRequested).consoleVisible = false) ∧
      (∀ s : TrayState, s.isMinimized = true →
        (dispatchEvent s .restoreRequested).isMinimized = false ∧
          (dispatchEvent s .restoreRequested).consoleVisible = true) ∧
      (∀ s : TrayState, s.isMinimized = false → s.consoleVisible = true →
        dispatchEvent s .restoreRequested = s) ∧
      (∀ s : TrayState,
        (dispatchEvent s .exitRequested).quitPosted = true ∧
          (dispatchEvent s .exitRequested).running = false) ∧
      (∀ (s : TrayState) (es : List TrayEvent), s.quitPosted = false →
        shutdownsPerformed s es
          = if TrayEvent.exitRequested ∈ es then 1 else 0) := by
  refine ⟨fun s _ => ⟨rfl, rfl⟩, fun s _ => ⟨rfl, rfl⟩, ?_, fun s => ⟨rfl, rfl⟩,
    fun s es h => shutdownsPerformed_eq es s h⟩
  intro s h1 h2
  show { s with consoleVisible := true, isMinimized := false } = s
  cases s
  simp only at h1 h2
  rw [h1, h2]

theorem trayStateMachine_witness :
    ((⟨false, true, true, true, false⟩ : TrayState).isMinimized = false) ∧
      dispatchEvent (⟨false, true, true, true, false⟩ : TrayState)
          TrayEvent.restoreRequested = ⟨false, true, true, true, false⟩ ∧
      ((⟨true, false, true, true, false⟩ : TrayState).isMinimized = true) ∧
      (dispatchEvent (⟨true, false, true, true, false⟩ : TrayState)
          TrayEvent.restoreRequested).consoleVisible = true ∧
      shutdownsPerformed (⟨false, true, true, true, false⟩ : TrayState)
          [TrayEvent.exitRequested, TrayEvent.exitRequested] = 1 :=
  ⟨rfl,
    trayStateMachine.2.2.1 ⟨false, true, true, true, false⟩ rfl rfl,
    rfl,
    (trayStateMachine.2.1 ⟨true, false, true, true, false⟩ rfl).2,
    by
      rw [trayStateMachine.2.2.2.2 ⟨false, true, true, true, false⟩
        [TrayEvent.exitRequested, TrayEvent.exitRequested] rfl]
      rw [if_pos (List.mem_cons_self _ _)]⟩

/-! ## Shutdown (C8) -/

/-- The cleanup steps WinMain performs after the message loop ends, in
program order: `running = false`, `WaitForSingleObject(hThread, INFINITE)`,
`CloseHandle(hThread)`. -/
inductive CleanupStep
  | setStopFlag
  | waitProducer
  | closeHandle
deriving DecidableEq

def winMainCleanup : List CleanupStep :=
  [CleanupStep.setStopFlag, CleanupStep.waitProducer, CleanupStep.closeHandle]

/-- C8: shutdown is idempotent — running `ExitApplication` a second time
reproduces exactly the state the first call left (icon removed, loop flag
cleared, quit posted — every field unchanged) — and the WinMain cleanup
blocks on the producer (the wait step strictly precedes the handle
release, which occurs exactly once). -/
theorem shutdown_idempotent :
    (∀ s : TrayState, exitApplication (exitApplication s) = exitApplication s) ∧
      List.indexOf CleanupStep.waitProducer winMainCleanup
          < List.indexOf CleanupStep.closeHandle winMainCleanup ∧
      winMainCleanup.count CleanupStep.closeHandle = 1 := by
  exact ⟨fun s => rfl, by decide, by decide⟩

/-! ## Producer stop protocol (C7)

RunningLoop checks the shared `running` flag once per iteration and, when
it still reads true, performs one `AppendText` and sleeps; the WinMain
cleanup clears the flag. The RunState of the spec is realized by the pair
(flag, thread-exited): RUNNING while the flag is set, STOPPING after
`running = false` until `RunningLoop` returns, STOPPED once it has. -/

inductive RunState
  | RUNNING
  | STOPPING
  | STOPPED
deriving DecidableEq

/-- The shared state relevant to shutdown: the `running` flag and whether
the producer thread has returned. -/
structure SysState where
  runFlag : Bool
  threadExited : Bool
deriving DecidableEq

def runStateOf (s : SysState) : RunState :=
  if s.threadExited then RunState.STOPPED
  else if s.runFlag then RunState.RUNNING
  else RunState.STOPPING

/-- The write `running = false` in the WinMain cleanup: a plain flag write. -/
def stopProducer (s : SysState) : SysState := { s with runFlag := false }

/-- The timing of the producer loop: iteration `i` reads the flag at
`readTime i` and, if the read returned true, performs its append at
`appendTime i`; reads and appends strictly alternate, exactly as the
single-threaded loop body orders them. -/
structure ProducerSchedule where
  readTime : Nat → Nat
  appendTime : Nat → Nat
  read_lt_append : ∀ i, readTime i < appendTime i
  append_lt_read : ∀ i, appendTime i < readTime (i + 1)

theorem ProducerSchedule.readTime_strictMono (sch : ProducerSchedule) :
    StrictMono sch.readTime :=
  strictMono_nat_of_lt_succ fun i =>
    Nat.lt_trans (sch.read_lt_append i) (sch.append_lt_read i)

/-- C7: clearing the flag moves a not-yet-exited system to STOPPING; the
flag reads of the producer grow without bound, so some read observes the stop
and the loop terminates; among iterations whose flag read preceded the
stop at time `t`, at most one performs its append after `t`; and once the
thread has returned the run state is STOPPED. -/
theorem producer_stop_behavior :
    (∀ s : SysState, s.threadExited = false →
        runStateOf (stopProducer s) = RunState.STOPPING ∧
          runStateOf { s with runFlag := true } = RunState.RUNNING) ∧
      (∀ (sch : ProducerSchedule) (t : Nat), ∃ k, t ≤ sch.readTime k) ∧
      (∀ (sch : ProducerSchedule) (t i j : Nat),
        sch.readTime i < t → t < sch.appendTime i →
        sch.readTime j < t → t < sch.appendTime j → i = j) ∧
      (∀ s : SysState, s.threadExited = true →
        runStateOf s = RunState.STOPPED) := by
  refine ⟨?_, ?_, ?_, ?_⟩
  · intro s h
    cases s
    simp only at h
    rw [h]
    exact ⟨rfl, rfl⟩
  · intro sch t
    exact ⟨t, sch.readTime_strictMono.le_apply⟩
  · intro sch t i j hri hai hrj haj
    by_contra hne
    rcases Nat.lt_or_ge i j with hij | hij
    · have h1 : sch.appendTime i < sch.readTime j :=
        Nat.lt_of_lt_of_le (sch.append_lt_read i)
          (sch.readTime_strictMono.le_iff_le.mpr hij)
      omega
    · have hji : j < i := Nat.lt_of_le_of_ne hij (fun he => hne he.symm)
      have h1 : sch.appendTime j < sch.readTime i :=
        Nat.lt_of_lt_of_le (sch.append_lt_read j)
          (sch.readTime_strictMono.le_iff_le.mpr hji)
      omega
  · intro s h
    rw [runStateOf, h]
    rfl

/-- A concrete producer schedule: iteration `i` reads at time `3 i` and
appends at time `3 i + 2`. -/
def sampleSchedule : ProducerSchedule :=
  ⟨fun i => 3 * i, fun i => 3 * i + 2,
    fun i => by show 3 * i < 3 * i + 2; omega,
    fun i => by show 3 * i + 2 < 3 * (i + 1); omega⟩

theorem producer_stop_behavior_witness :
    ((⟨true, false⟩ : SysState).threadExited = false) ∧
      runStateOf (stopProducer ⟨true, false⟩) = RunState.STOPPING ∧
      (∃ k, 5 ≤ sampleSchedule.readTime k) ∧
      (sampleSchedule.readTime 0 < 1 ∧ 1 < sampleSchedule.appendTime 0) ∧
      runStateOf (⟨false, true⟩ : SysState) = RunState.STOPPED ∧
      (0 : Nat) = 0 :=
  ⟨rfl,
    (producer_stop_behavior.1 ⟨true, false⟩ rfl).1,
    producer_stop_behavior.2.1 sampleSchedule 5,
    ⟨by decide, by decide⟩,
    producer_stop_behavior.2.2.2 ⟨false, true⟩ rfl,
    producer_stop_behavior.2.2.1 sampleSchedule 1 0 0 (by decide) (by decide)
      (by decide) (by decide)⟩

end AnyNotes
